import Mathlib

/-!
Verification of the GraphRAG chat backend (FastAPI + Neo4j).

This file shallowly embeds the code of `src/conversation_api.py`,
`src/graphrag_retriever.py` and `src/llm_client.py`:

* pure Python functions become Lean functions on the same data;
* the Neo4j store is passed explicitly as a `Graph` value and the
  retrieval Cypher query is given executable semantics over it;
* LLM round trips are modelled by passing the (possibly failed) response
  as an explicit `Option` argument;
* the streaming orchestrator `chat.event_gen` is modelled as a function
  from an abstract pipeline outcome to the list of emitted SSE events
  plus the finalization action on the accumulated token buffer.

All definitions are executable, so concrete runs can be settled with
`decide` / `rfl`.
-/

/-! ## Python-style string primitives (char-list based, kernel-reducible) -/

/-- Characters stripped by Python `str.strip()` with no argument
(ASCII whitespace; the rare extra Unicode space classes are not needed
by any string this development manipulates). -/
def pyIsSpace (c : Char) : Bool :=
  c == ' ' || c == '\t' || c == '\n' || c == '\r' || c == '\x0b' || c == '\x0c'

/-- Drop characters satisfying `p` from both ends of a char list
(the semantics of Python `str.strip(chars)`). -/
def stripEnds (p : Char → Bool) (l : List Char) : List Char :=
  ((l.dropWhile p).reverse.dropWhile p).reverse

/-- Python `s.strip()` (default whitespace stripping). -/
def pyStrip (s : String) : String :=
  ⟨stripEnds pyIsSpace s.data⟩

/-- Python `sep.join(parts)`. -/
def joinSep (sep : String) : List String → String
  | [] => ""
  | [x] => x
  | x :: y :: rest => x ++ sep ++ joinSep sep (y :: rest)

/-- `beginsWith nd l`: `nd` is an initial segment of `l`
(Python `str.startswith`, at the char-list level). -/
def beginsWith : List Char → List Char → Bool
  | [], _ => true
  | _ :: _, [] => false
  | a :: as, b :: bs => a == b && beginsWith as bs

/-- `occursIn nd l`: `nd` occurs contiguously inside `l`
(Python `needle in hay`, at the char-list level). -/
def occursIn (nd : List Char) : List Char → Bool
  | [] => nd.isEmpty
  | c :: t => beginsWith nd (c :: t) || occursIn nd t

/-- `strContains hay needle`: substring test on strings. -/
def strContains (hay needle : String) : Bool :=
  occursIn needle.data hay.data

theorem str_data_append (a b : String) : (a ++ b).data = a.data ++ b.data := by
  cases a; cases b; rfl

theorem beginsWith_self_append (a b : List Char) : beginsWith a (a ++ b) = true := by
  induction a with
  | nil => rfl
  | cons c t ih => simp [beginsWith, ih]

theorem beginsWith_extend (nd h t : List Char) (hb : beginsWith nd h = true) :
    beginsWith nd (h ++ t) = true := by
  induction nd generalizing h with
  | nil => rfl
  | cons a as ih =>
    cases h with
    | nil => simp [beginsWith] at hb
    | cons b bs =>
      simp only [beginsWith, Bool.and_eq_true] at hb
      simp only [List.cons_append, beginsWith, Bool.and_eq_true]
      exact ⟨hb.1, ih bs hb.2⟩

theorem occursIn_nil_needle (l : List Char) : occursIn [] l = true := by
  cases l with
  | nil => rfl
  | cons c t => simp [occursIn, beginsWith]

theorem occursIn_of_beginsWith (nd h : List Char) (hb : beginsWith nd h = true) :
    occursIn nd h = true := by
  cases h with
  | nil =>
    cases nd with
    | nil => rfl
    | cons a as => simp [beginsWith] at hb
  | cons c t => simp [occursIn, hb]

theorem occursIn_append_right (nd s t : List Char) (h : occursIn nd t = true) :
    occursIn nd (s ++ t) = true := by
  induction s with
  | nil => simpa using h
  | cons c cs ih => simp [occursIn, ih]

theorem occursIn_append_left (nd s t : List Char) (h : occursIn nd s = true) :
    occursIn nd (s ++ t) = true := by
  induction s with
  | nil =>
    simp only [occursIn, List.isEmpty_iff] at h
    subst h
    simpa using occursIn_nil_needle t
  | cons c cs ih =>
    simp only [occursIn, Bool.or_eq_true] at h
    rcases h with h | h
    · simp only [List.cons_append, occursIn, Bool.or_eq_true]
      exact Or.inl (by simpa using beginsWith_extend nd (c :: cs) t h)
    · simp only [List.cons_append, occursIn, Bool.or_eq_true]
      exact Or.inr (ih h)

theorem occursIn_self (l : List Char) : occursIn l l = true := by
  have h := beginsWith_self_append l []
  rw [List.append_nil] at h
  exact occursIn_of_beginsWith l l h

theorem occursIn_mem_joinSep (sep : String) (l : List String) (x : String) (hx : x ∈ l) :
    occursIn x.data (joinSep sep l).data = true := by
  induction l with
  | nil => cases hx
  | cons a rest ih =>
    cases rest with
    | nil =>
      rcases List.mem_singleton.mp hx with rfl
      exact occursIn_self x.data
    | cons b rest' =>
      rcases List.mem_cons.mp hx with rfl | hmem
      · show occursIn x.data (x ++ sep ++ joinSep sep (b :: rest')).data = true
        rw [str_data_append, str_data_append, List.append_assoc]
        exact occursIn_append_left _ _ _ (occursIn_self x.data)
      · show occursIn x.data (a ++ sep ++ joinSep sep (b :: rest')).data = true
        rw [str_data_append, str_data_append, List.append_assoc]
        exact occursIn_append_right _ _ _
          (occursIn_append_right _ _ _ (ih hmem))

theorem pyStrip_of_all_space (s : String) (h : ∀ c ∈ s.data, pyIsSpace c = true) :
    pyStrip s = "" := by
  have hd : s.data.dropWhile pyIsSpace = [] := List.dropWhile_eq_nil_iff.mpr h
  show String.mk (stripEnds pyIsSpace s.data) = ""
  rw [stripEnds, hd]
  rfl

/-! ## Entity extraction (`conversation_api.extract_entities`,
    `graphrag_api.extract_entities_via_llm`)

The LLM round trip returns a content string; the Python code then runs
`json.loads` and reads the five fields with `data.get(k, []) or []`.
We model the outcome of that parse: `none` stands for any exception in
the `try` block (non-JSON content, or a JSON value that is not an
object, so that `.get` raises); `some d` stands for a parsed JSON
object whose fields are `none` when absent or JSON-null and
`some xs` when present as a string array.  A present-but-null or
present-but-empty field and an absent field all normalise to `[]`
through `or []`, which the `Option.getD []` below reproduces. -/

structure EntityPack where
  persons : List String
  locations : List String
  orgs : List String
  events : List String
  keywords : List String
deriving DecidableEq, Repr

structure RawEntityJson where
  persons : Option (List String)
  locations : Option (List String)
  orgs : Option (List String)
  events : Option (List String)
  keywords : Option (List String)
deriving DecidableEq, Repr

/-- `conversation_api.extract_entities` after the LLM call: build the
entity pack from the parse outcome; any failure degrades to empty
containers with the raw question as the only keyword. -/
def extract_entities (question : String) (parsed : Option RawEntityJson) : EntityPack :=
  match parsed with
  | some d =>
    { persons := d.persons.getD []
      locations := d.locations.getD []
      orgs := d.orgs.getD []
      events := d.events.getD []
      keywords := d.keywords.getD [] }
  | none =>
    { persons := [], locations := [], orgs := [], events := [], keywords := [question] }

/-- C2: the entity extractor never raises (it is a total function of the
parse outcome); on parse failure it returns empty containers except
`keywords`, which is exactly the one-element list holding the raw
question; on success every missing field defaults to an empty
container. -/
theorem extract_entities_graceful (question : String) (parsed : Option RawEntityJson) :
    (parsed = none →
      extract_entities question parsed =
        { persons := [], locations := [], orgs := [], events := [],
          keywords := [question] }) ∧
    (∀ d, parsed = some d →
      (d.persons = none → (extract_entities question parsed).persons = []) ∧
      (d.locations = none → (extract_entities question parsed).locations = []) ∧
      (d.orgs = none → (extract_entities question parsed).orgs = []) ∧
      (d.events = none → (extract_entities question parsed).events = []) ∧
      (d.keywords = none → (extract_entities question parsed).keywords = [])) := by
  constructor
  · rintro rfl
    rfl
  · rintro d rfl
    refine ⟨?_, ?_, ?_, ?_, ?_⟩ <;>
      (intro hf; simp [extract_entities, hf])

/-- Witness for `extract_entities_graceful` at a concrete question, for
both a failed parse and a parse with all fields missing. -/
theorem extract_entities_graceful_witness :
    (extract_entities "谁是主角" none =
      { persons := [], locations := [], orgs := [], events := [],
        keywords := ["谁是主角"] }) ∧
    (extract_entities "谁是主角" (some ⟨none, none, none, none, none⟩)).persons = [] := by
  refine ⟨(extract_entities_graceful "谁是主角" none).1 rfl, ?_⟩
  exact (((extract_entities_graceful "谁是主角"
    (some ⟨none, none, none, none, none⟩)).2 ⟨none, none, none, none, none⟩ rfl)).1 rfl

/-! ## Evidence shape and context building (`graphrag_retriever.build_context`)

`neo4j_retrieve` returns
`{"edges": [{"from", "rel", "to"}, ...], "chunks": [{"chunk_id", "chapter_id", "text"}, ...]}`.
In the Cypher query `from`/`to` are built with `coalesce(..., "")`, so
they are always strings, while `rel` is `type(r)` and may be null; the
chunk map fields are raw node properties and may each be null. -/

structure CyEdge where
  frm : String
  rel : Option String
  tgt : String
deriving DecidableEq, Repr

structure CyChunk where
  chunk_id : Option String
  chapter_id : Option String
  text : Option String
deriving DecidableEq, Repr

structure Evidence where
  edges : List CyEdge
  chunks : List CyChunk
deriving DecidableEq, Repr

/-- Python truthiness of `e.get("rel")`: present and non-empty. -/
def truthyOpt : Option String → Bool
  | none => false
  | some s => !(s == "")

/-- The fact bullet; `frm`/`tgt` stand for the Python dict keys
named after the edge endpoints, which are not legal Lean names. -/
def edgeLine (frm rel tgt : String) : String :=
  "- (" ++ frm ++ ") -[" ++ rel ++ "]-> (" ++ tgt ++ ")"

/-- The chunk block `f"[chunk_id=..., chapter_id=...] ..."`, with the
`c.get(key, '')` defaults. -/
def chunkBlock (c : CyChunk) : String :=
  "[chunk_id=" ++ c.chunk_id.getD "" ++ ", chapter_id=" ++ c.chapter_id.getD "" ++ "] "
    ++ c.text.getD ""

/-- The fact-line loop of `build_context`: first 80 edges, keeping only
those whose `from`, `rel` and `to` are all truthy. -/
def factLines (edges : List CyEdge) : List String :=
  (edges.take 80).filterMap (fun e =>
    match e.rel with
    | some r =>
      if e.frm ≠ "" ∧ r ≠ "" ∧ e.tgt ≠ "" then some (edgeLine e.frm r e.tgt) else none
    | none => none)

def ctxHeader : String :=
  "你将基于“子图事实”和“证据片段”回答用户问题。不得编造；若证据不足就说明不足。\n\n子图事实：\n"

def evidenceHeader : String :=
  "\n\n证据片段：\n"

/-- `graphrag_retriever.build_context`. -/
def build_context (retrieved : Evidence) : String :=
  let fact_lines := factLines retrieved.edges
  let chunk_blocks := retrieved.chunks.map chunkBlock
  ctxHeader
    ++ (if fact_lines.isEmpty then "(无)\n" else joinSep "\n" fact_lines)
    ++ evidenceHeader
    ++ (if chunk_blocks.isEmpty then "(无)\n" else joinSep "\n\n" chunk_blocks)

theorem strContains_quad_second (a b c d x : String)
    (h : occursIn x.data b.data = true) :
    strContains (a ++ b ++ c ++ d) x = true := by
  show occursIn x.data (a ++ b ++ c ++ d).data = true
  rw [str_data_append, str_data_append, str_data_append]
  exact occursIn_append_left _ _ _
    (occursIn_append_left _ _ _ (occursIn_append_right _ _ _ h))

theorem strContains_quad_fourth (a b c d x : String)
    (h : occursIn x.data d.data = true) :
    strContains (a ++ b ++ c ++ d) x = true := by
  show occursIn x.data (a ++ b ++ c ++ d).data = true
  rw [str_data_append, str_data_append, str_data_append]
  exact occursIn_append_right _ _ _ h

/-- C6: `build_context` is a pure deterministic function of the evidence,
and an empty edges (resp. chunks) collection renders an explicit "(无)"
placeholder in its section of the context string. -/
theorem build_context_pure_empty_markers (ev : Evidence) :
    build_context ev = build_context ev ∧
    (ev.edges = [] →
      ∃ s, build_context ev = ctxHeader ++ "(无)\n" ++ evidenceHeader ++ s) ∧
    (ev.chunks = [] →
      ∃ s, build_context ev = ctxHeader ++ s ++ evidenceHeader ++ "(无)\n") := by
  obtain ⟨edges, chunks⟩ := ev
  refine ⟨rfl, ?_, ?_⟩
  · rintro rfl
    exact ⟨_, rfl⟩
  · rintro rfl
    exact ⟨_, rfl⟩

/-- Witness for `build_context_pure_empty_markers` on fully empty
evidence: both placeholders are rendered. -/
theorem build_context_pure_empty_markers_witness :
    ∃ s, build_context ⟨[], []⟩ = ctxHeader ++ "(无)\n" ++ evidenceHeader ++ s :=
  (build_context_pure_empty_markers ⟨[], []⟩).2.1 rfl

/-- C7 (amended): every edge among the first 80 whose `from`, `rel` and
`to` fields are all truthy is rendered as its bullet fact line inside
the context string, and every chunk of the input is rendered as its
block, orderly appended into the corresponding section. -/
theorem build_context_renders (ev : Evidence) :
    (∀ e ∈ ev.edges.take 80, ∀ r, e.rel = some r →
      e.frm ≠ "" → r ≠ "" → e.tgt ≠ "" →
      strContains (build_context ev) (edgeLine e.frm r e.tgt) = true) ∧
    (∀ c ∈ ev.chunks, strContains (build_context ev) (chunkBlock c) = true) := by
  constructor
  · intro e he r hrel h1 h2 h3
    have hline : edgeLine e.frm r e.tgt ∈ factLines ev.edges := by
      refine List.mem_filterMap.mpr ⟨e, he, ?_⟩
      simp [hrel, h1, h2, h3]
    have hne : (factLines ev.edges).isEmpty = false := by
      have := List.ne_nil_of_mem hline
      simpa [List.isEmpty_iff] using this
    have hctx : build_context ev =
        ctxHeader ++ joinSep "\n" (factLines ev.edges) ++ evidenceHeader
          ++ (if (ev.chunks.map chunkBlock).isEmpty then "(无)\n"
              else joinSep "\n\n" (ev.chunks.map chunkBlock)) := by
      simp only [build_context, hne, Bool.false_eq_true, if_false]
    rw [hctx]
    exact strContains_quad_second _ _ _ _ _
      (occursIn_mem_joinSep "\n" (factLines ev.edges) _ hline)
  · intro c hc
    have hblock : chunkBlock c ∈ ev.chunks.map chunkBlock := List.mem_map_of_mem _ hc
    have hne : (ev.chunks.map chunkBlock).isEmpty = false := by
      have := List.ne_nil_of_mem hblock
      simpa [List.isEmpty_iff] using this
    have hctx : build_context ev =
        ctxHeader
          ++ (if (factLines ev.edges).isEmpty then "(无)\n"
              else joinSep "\n" (factLines ev.edges))
          ++ evidenceHeader ++ joinSep "\n\n" (ev.chunks.map chunkBlock) := by
      simp only [build_context, hne, Bool.false_eq_true, if_false]
    rw [hctx]
    exact strContains_quad_fourth _ _ _ _ _
      (occursIn_mem_joinSep "\n\n" (ev.chunks.map chunkBlock) _ hblock)

/-- Witness for `build_context_renders`: a concrete fully-truthy edge
and a concrete chunk are both rendered. -/
theorem build_context_renders_witness :
    strContains
      (build_context ⟨[⟨"甲", some "LOVES", "乙"⟩], [⟨some "c1", some "ch1", some "正文"⟩]⟩)
      (edgeLine "甲" "LOVES" "乙") = true ∧
    strContains
      (build_context ⟨[⟨"甲", some "LOVES", "乙"⟩], [⟨some "c1", some "ch1", some "正文"⟩]⟩)
      (chunkBlock ⟨some "c1", some "ch1", some "正文"⟩) = true := by
  constructor
  · exact (build_context_renders _).1 ⟨"甲", some "LOVES", "乙"⟩ (by decide) "LOVES"
      rfl (by decide) (by decide) (by decide)
  · exact (build_context_renders _).2 ⟨some "c1", some "ch1", some "正文"⟩ (by decide)

/-- Counterexample to C7 as stated: an edge with empty endpoint names
sits among the first 80 edges, yet no bullet line for it (indeed no
bullet line at all) appears in the rendered context — edges with a
falsy `from`, `rel` or `to` are silently skipped by `build_context`. -/
theorem build_context_renders_cex :
    (⟨"", some "LOVES", ""⟩ : CyEdge) ∈
      (Evidence.mk [⟨"", some "LOVES", ""⟩] []).edges.take 80 ∧
    strContains (build_context ⟨[⟨"", some "LOVES", ""⟩], []⟩)
      (edgeLine "" "LOVES" "") = false := by
  constructor
  · decide
  · decide

/-! ## Token streaming (`llm_client.DeepSeekClient.chat_completion_stream`)

The upstream HTTP response is the list of SSE lines produced by
`aiter_lines`.  JSON decoding of a data payload is abstracted by the
argument `parseDelta`: `none` models any exception in the `try` block
(`json.loads` failure, missing or malformed `choices`), and
`some c` models a successful parse whose `delta.get("content")` is `c`
(`none` for an absent or JSON-null content field).  Everything else —
the empty-line skip, the `data:` prefix test, the payload strip, the
`[DONE]` sentinel and the truthiness test on the token — is executed
on the actual strings. -/

def chat_completion_stream (parseDelta : String → Option (Option String)) :
    List String → List String
  | [] => []
  | line :: rest =>
    if line = "" then chat_completion_stream parseDelta rest
    else if beginsWith "data:".data line.data = false then
      chat_completion_stream parseDelta rest
    else
      let dataStr := pyStrip (line.drop 5)
      if dataStr = "[DONE]" then []
      else
        match parseDelta dataStr with
        | none => chat_completion_stream parseDelta rest
        | some none => chat_completion_stream parseDelta rest
        | some (some tok) =>
          if tok = "" then chat_completion_stream parseDelta rest
          else tok :: chat_completion_stream parseDelta rest

theorem chat_completion_stream_tokens_nonempty
    (p : String → Option (Option String)) :
    ∀ lines, ∀ t ∈ chat_completion_stream p lines, t ≠ "" := by
  intro lines
  induction lines with
  | nil =>
    intro t ht
    simp [chat_completion_stream] at ht
  | cons line rest ih =>
    intro t ht
    rw [chat_completion_stream] at ht
    dsimp only at ht
    split at ht
    · exact ih t ht
    · split at ht
      · exact ih t ht
      · split at ht
        · cases ht
        · split at ht
          · exact ih t ht
          · exact ih t ht
          · rename_i htok
            split at ht
            · exact ih t ht
            · rcases List.mem_cons.mp ht with rfl | hmem
              · assumption
              · exact ih t hmem

/-- C10: the streaming generator yields only non-empty token strings;
empty lines, non-`data:` lines, unparseable payloads and deltas with an
absent or empty content field neither yield an element nor terminate
the sequence, and a received `[DONE]` sentinel terminates it. -/
theorem chat_completion_stream_spec (p : String → Option (Option String))
    (lines : List String) :
    (∀ t ∈ chat_completion_stream p lines, t ≠ "") ∧
    (∀ line rest, lines = line :: rest →
      ((line = "" ∨ beginsWith "data:".data line.data = false ∨
          (beginsWith "data:".data line.data = true ∧
           pyStrip (line.drop 5) ≠ "[DONE]" ∧
           (p (pyStrip (line.drop 5)) = none ∨
            p (pyStrip (line.drop 5)) = some none ∨
            p (pyStrip (line.drop 5)) = some (some "")))) →
        chat_completion_stream p lines = chat_completion_stream p rest) ∧
      (beginsWith "data:".data line.data = true →
        pyStrip (line.drop 5) = "[DONE]" →
        chat_completion_stream p lines = []) ∧
      (∀ tok, beginsWith "data:".data line.data = true →
        pyStrip (line.drop 5) ≠ "[DONE]" →
        p (pyStrip (line.drop 5)) = some (some tok) → tok ≠ "" →
        chat_completion_stream p lines = tok :: chat_completion_stream p rest)) := by
  refine ⟨chat_completion_stream_tokens_nonempty p lines, ?_⟩
  rintro line rest rfl
  have hbw : beginsWith "data:".data line.data = true → line ≠ "" := by
    intro hb hl
    subst hl
    simp [beginsWith] at hb
  refine ⟨?_, ?_, ?_⟩
  · rintro (rfl | hnd | ⟨hd, hne, hp⟩)
    · rw [chat_completion_stream]
      simp
    · rw [chat_completion_stream]
      by_cases hl : line = ""
      · simp [hl]
      · simp [hl, hnd]
    · rw [chat_completion_stream]
      rcases hp with hp | hp | hp <;>
        simp [hbw hd, hd, hne, hp]
  · intro hd hdone
    rw [chat_completion_stream]
    simp [hbw hd, hd, hdone]
  · intro tok hd hne hp htok
    rw [chat_completion_stream]
    simp [hbw hd, hd, hne, hp, htok]

/-- Witness for `chat_completion_stream_spec` with a concrete parser and
concrete lines: a keep-alive line is skipped, a content token is
yielded, and the sentinel terminates the stream. -/
theorem chat_completion_stream_spec_witness :
    (∀ t ∈ chat_completion_stream
        (fun s => if s = "ok" then some (some "Hi") else none)
        ["", ": ping", "data: ok", "data: [DONE]", "data: junk"], t ≠ "") ∧
    chat_completion_stream
        (fun s => if s = "ok" then some (some "Hi") else none)
        ["data: [DONE]", "data: junk"] = [] ∧
    chat_completion_stream
        (fun s => if s = "ok" then some (some "Hi") else none)
        ["", ": ping"] = chat_completion_stream
        (fun s => if s = "ok" then some (some "Hi") else none) [": ping"] := by
  refine ⟨(chat_completion_stream_spec _ _).1, ?_, ?_⟩
  · exact ((chat_completion_stream_spec
      (fun s => if s = "ok" then some (some "Hi") else none)
      ["data: [DONE]", "data: junk"]).2 "data: [DONE]" ["data: junk"] rfl).2.1
      (by decide) (by decide)
  · exact ((chat_completion_stream_spec
      (fun s => if s = "ok" then some (some "Hi") else none)
      ["", ": ping"]).2 "" [": ping"] rfl).1 (Or.inl rfl)

/-! ## Graph retrieval (`graphrag_retriever.neo4j_retrieve`)

The Neo4j store is modelled explicitly: nodes carry their labels and
the properties the query touches (`name`, `alias`, `chunk_id`,
`chapter_id`, `text`; a missing property is `none`, and `alias` already
stands for `coalesce(n.alias, [])`), relationships are `(src, rel, dst)`
triples over node ids.  The Cypher query is a chain of OPTIONAL MATCH
clauses: each clause extends every current row with each match, or with
nulls when no match exists; aggregation then collects the two
DISTINCT edge-map lists and the four DISTINCT chunk-node lists, the
chunk list is unwound, and `res.single()` yields `None` — hence the
empty Python result — when that unwound list is empty. -/

def REL_WHITELIST : List String :=
  ["FRIEND_OF", "FAMILY_OF", "LOVES", "MARRIED_TO", "WORKS_FOR", "STUDIES_AT",
   "PARTICIPATES_IN", "HAPPENS_AT", "INVOLVES", "MENTIONED_IN", "SUPPORTED_BY"]

structure GNode where
  nid : Nat
  isPerson : Bool
  isEvent : Bool
  isChunk : Bool
  name : Option String
  aliases : List String
  chunk_id : Option String
  chapter_id : Option String
  text : Option String
deriving DecidableEq, Repr

structure GEdge where
  src : Nat
  rel : String
  dst : Nat
deriving DecidableEq, Repr

structure Graph where
  nodes : List GNode
  edges : List GEdge
deriving DecidableEq, Repr

def Graph.findNode (g : Graph) (i : Nat) : Option GNode :=
  g.nodes.find? (fun n => n.nid == i)

/-- One row of the Cypher result set: the bindings of the ten match
variables, `none` meaning SQL-style null. -/
structure Row where
  p : Option GNode
  e : Option GNode
  r1 : Option GEdge
  x : Option GNode
  r2 : Option GEdge
  y : Option GNode
  c1 : Option GNode
  c2 : Option GNode
  c3 : Option GNode
  ck : Option GNode
deriving DecidableEq, Repr

def rowNull : Row :=
  ⟨none, none, none, none, none, none, none, none, none, none⟩

/-- OPTIONAL MATCH row extension: each candidate extends the row, and a
row with no candidates survives unchanged (null extension). -/
def optExtend (cands : List α) (ext : α → Row) (ρ : Row) : List Row :=
  if cands.isEmpty then [ρ] else cands.map ext

/-- `p.name IN names OR any(a IN coalesce(p.alias,[]) WHERE a IN names)`;
a null `name` makes the first disjunct null, i.e. not satisfied; the
`aliases` field stands for the coalesced `alias` property, whose name
is reserved in Lean. -/
def nameOrAliasIn (n : GNode) (names : List String) : Bool :=
  (match n.name with
   | some nm => names.contains nm
   | none => false) || n.aliases.any (fun a => names.contains a)

/-- `OPTIONAL MATCH (p:Person) WHERE ...`. -/
def matchPersons (g : Graph) (persons : List String) (rows : List Row) : List Row :=
  rows.flatMap (fun ρ =>
    optExtend (g.nodes.filter (fun n => n.isPerson && nameOrAliasIn n persons))
      (fun n => { ρ with p := some n }) ρ)

/-- `OPTIONAL MATCH (e:Event) WHERE ...`. -/
def matchEvents (g : Graph) (events : List String) (rows : List Row) : List Row :=
  rows.flatMap (fun ρ =>
    optExtend (g.nodes.filter (fun n => n.isEvent && nameOrAliasIn n events))
      (fun n => { ρ with e := some n }) ρ)

/-- Outgoing whitelisted relationships of a node, with their targets. -/
def hopCands (g : Graph) (n : GNode) : List (GEdge × GNode) :=
  g.edges.filterMap (fun ed =>
    if ed.src == n.nid && REL_WHITELIST.contains ed.rel then
      (g.findNode ed.dst).map (fun m => (ed, m))
    else none)

/-- `OPTIONAL MATCH (p)-[r1]->(x) WHERE type(r1) IN $rel_whitelist`. -/
def matchHop1 (g : Graph) (rows : List Row) : List Row :=
  rows.flatMap (fun ρ =>
    match ρ.p with
    | none => [ρ]
    | some pn => optExtend (hopCands g pn)
        (fun em => { ρ with r1 := some em.1, x := some em.2 }) ρ)

/-- `OPTIONAL MATCH (x)-[r2]->(y) WHERE $max_hops >= 2 AND type(r2) IN
$rel_whitelist`; `hop2` is the truth value of `$max_hops >= 2`, which
makes the clause match nothing when false. -/
def matchHop2 (g : Graph) (hop2 : Bool) (rows : List Row) : List Row :=
  rows.flatMap (fun ρ =>
    match ρ.x with
    | none => [ρ]
    | some xn =>
      if hop2 then
        optExtend (hopCands g xn)
          (fun em => { ρ with r2 := some em.1, y := some em.2 }) ρ
      else [ρ])

/-- `SUPPORTED_BY` chunk targets of a node:
`OPTIONAL MATCH (v)-[:SUPPORTED_BY]->(c:Chunk)` candidates. -/
def supportCands (g : Graph) (n : GNode) : List GNode :=
  g.edges.filterMap (fun ed =>
    if ed.src == n.nid && ed.rel == "SUPPORTED_BY" then
      (g.findNode ed.dst).bind (fun m => if m.isChunk then some m else none)
    else none)

/-- The three evidence clauses, one per source variable. -/
def matchSupport (g : Graph) (get : Row → Option GNode) (set : Row → GNode → Row)
    (rows : List Row) : List Row :=
  rows.flatMap (fun ρ =>
    match get ρ with
    | none => [ρ]
    | some n => optExtend (supportCands g n) (set ρ) ρ)

/-- Keyword fallback clause: `OPTIONAL MATCH (ck:Chunk) WHERE (size(keywords) > 0
AND any(k IN keywords WHERE ck.text CONTAINS k)) OR (size(keywords) = 0 AND
size(fallback_keywords) > 0 AND any(k IN fallback_keywords WHERE ck.text
CONTAINS k))`; a null `text` satisfies neither branch. -/
def ckCond (keywords fallback_keywords : List String) (n : GNode) : Bool :=
  n.isChunk &&
    ((decide (0 < keywords.length) &&
        (match n.text with
         | some t => keywords.any (fun k => occursIn k.data t.data)
         | none => false))
     ||
     (keywords.length == 0 && decide (0 < fallback_keywords.length) &&
        (match n.text with
         | some t => fallback_keywords.any (fun k => occursIn k.data t.data)
         | none => false)))

def matchKeywordChunks (g : Graph) (keywords fallback_keywords : List String)
    (rows : List Row) : List Row :=
  rows.flatMap (fun ρ =>
    optExtend (g.nodes.filter (ckCond keywords fallback_keywords))
      (fun n => { ρ with ck := some n }) ρ)

/-- `_norm_list`: strip each entry, drop empties and duplicates. -/
def _norm_list (xs : List String) : List String :=
  go [] xs
where
  go (seen : List String) : List String → List String
    | [] => []
    | x :: rest =>
      let x' := pyStrip x
      if x' = "" || seen.contains x' then go seen rest
      else x' :: go (x' :: seen) rest

/-- `collect(DISTINCT ...)`: first-occurrence deduplication. -/
def distinctList [DecidableEq α] : List α → List α :=
  go []
where
  go [DecidableEq α] (seen : List α) : List α → List α
    | [] => []
    | x :: rest =>
      if seen.contains x then go seen rest else x :: go (x :: seen) rest

/-- The full OPTIONAL MATCH chain on the normalised entity lists. -/
def retrieveRows (g : Graph) (entity_pack : EntityPack) (hop2 : Bool) : List Row :=
  let persons := _norm_list (entity_pack.persons.take 5)
  let events := _norm_list (entity_pack.events.take 5)
  let keywords := _norm_list (entity_pack.keywords.take 8)
  let fallback_keywords :=
    _norm_list (entity_pack.persons.take 5 ++ entity_pack.events.take 5)
  matchKeywordChunks g keywords fallback_keywords
    (matchSupport g (fun ρ => ρ.y) (fun ρ c => { ρ with c3 := some c })
      (matchSupport g (fun ρ => ρ.x) (fun ρ c => { ρ with c2 := some c })
        (matchSupport g (fun ρ => ρ.e) (fun ρ c => { ρ with c1 := some c })
          (matchHop2 g hop2
            (matchHop1 g
              (matchEvents g events
                (matchPersons g persons [rowNull])))))))

/-- `coalesce(n.name, "")`. -/
def optName (n : Option GNode) : String :=
  (n.bind (fun m => m.name)).getD ""

/-- `{from: coalesce(p.name,""), rel: type(r1), to: coalesce(x.name,"")}`. -/
def stage1Triple (ρ : Row) : CyEdge :=
  ⟨optName ρ.p, ρ.r1.map (fun ed => ed.rel), optName ρ.x⟩

/-- `{from: coalesce(x.name,""), rel: type(r2), to: coalesce(y.name,"")}`. -/
def stage2Triple (ρ : Row) : CyEdge :=
  ⟨optName ρ.x, ρ.r2.map (fun ed => ed.rel), optName ρ.y⟩

/-- The `edges` value of the aggregation row: the concatenation of the
two per-stage DISTINCT collections. -/
def cypherEdges (g : Graph) (pack : EntityPack) (hop2 : Bool) : List CyEdge :=
  distinctList ((retrieveRows g pack hop2).map stage1Triple)
    ++ distinctList ((retrieveRows g pack hop2).map stage2Triple)

/-- The `chunks` value of the aggregation row: the concatenation of the
four DISTINCT chunk-node collections (`collect` skips nulls). -/
def chunkNodeRows (g : Graph) (pack : EntityPack) (hop2 : Bool) : List GNode :=
  distinctList ((retrieveRows g pack hop2).filterMap (fun ρ => ρ.c1))
    ++ distinctList ((retrieveRows g pack hop2).filterMap (fun ρ => ρ.c2))
    ++ distinctList ((retrieveRows g pack hop2).filterMap (fun ρ => ρ.c3))
    ++ distinctList ((retrieveRows g pack hop2).filterMap (fun ρ => ρ.ck))

def nodeChunkMap (n : GNode) : CyChunk :=
  ⟨n.chunk_id, n.chapter_id, n.text⟩

/-- `collect(DISTINCT {chunk_id: ..., chapter_id: ..., text: ...})[0..$top_k]`
over the unwound chunk rows. -/
def cypherChunks (g : Graph) (pack : EntityPack) (top_k : Nat) (hop2 : Bool) :
    List CyChunk :=
  (distinctList ((chunkNodeRows g pack hop2).map nodeChunkMap)).take top_k

/-- The Python chunk deduplication: keep the first chunk per non-falsy
`chunk_id`. -/
def dedupChunksAux (seen : List String) : List CyChunk → List CyChunk
  | [] => []
  | c :: rest =>
    match c.chunk_id with
    | none => dedupChunksAux seen rest
    | some cid =>
      if cid = "" || seen.contains cid then dedupChunksAux seen rest
      else c :: dedupChunksAux (cid :: seen) rest

/-- The retrieval result for a given truth value of `$max_hops >= 2`:
when the unwound chunk list is empty the query returns no row and
`res.single()` is `None`, so the Python code returns empty evidence;
otherwise the Cypher `edges[0..80]` slice is filtered to truthy `rel`
and the chunk maps are deduplicated by `chunk_id`. -/
def retrieveCore (g : Graph) (pack : EntityPack) (top_k : Nat) (hop2 : Bool) :
    Evidence :=
  if (chunkNodeRows g pack hop2).isEmpty then ⟨[], []⟩
  else
    ⟨((cypherEdges g pack hop2).take 80).filter (fun ed => truthyOpt ed.rel),
     dedupChunksAux [] (cypherChunks g pack top_k hop2)⟩

/-- `graphrag_retriever.neo4j_retrieve`, with the graph state explicit. -/
def neo4j_retrieve (g : Graph) (entity_pack : EntityPack)
    (top_k_chunks : Nat) (max_hops : Nat) : Evidence :=
  retrieveCore g entity_pack top_k_chunks (decide (2 ≤ max_hops))

/-! ### Supporting lemmas about the retrieval pipeline -/

theorem flatMap_id_rows (l : List Row) (f : Row → List Row)
    (h : ∀ ρ ∈ l, f ρ = [ρ]) : l.flatMap f = l := by
  induction l with
  | nil => rfl
  | cons a t ih =>
    rw [List.flatMap_cons, h a (List.mem_cons_self a t),
      ih (fun ρ hρ => h ρ (List.mem_cons_of_mem a hρ))]
    rfl

theorem mem_optExtend {cands : List α} {ext : α → Row} {ρ ρ' : Row}
    (h : ρ' ∈ optExtend cands ext ρ) : ρ' = ρ ∨ ∃ a ∈ cands, ρ' = ext a := by
  unfold optExtend at h
  split at h
  · exact Or.inl (List.mem_singleton.mp h)
  · rcases List.mem_map.mp h with ⟨a, ha, hext⟩
    exact Or.inr ⟨a, ha, hext.symm⟩

theorem nameOrAliasIn_nil (n : GNode) : nameOrAliasIn n [] = false := by
  unfold nameOrAliasIn
  cases n.name <;> simp

theorem matchPersons_nil (g : Graph) (rows : List Row) :
    matchPersons g [] rows = rows := by
  unfold matchPersons
  have hf : g.nodes.filter (fun n => n.isPerson && nameOrAliasIn n []) = [] := by
    refine List.filter_eq_nil_iff.mpr (fun n _ => ?_)
    simp [nameOrAliasIn_nil]
  apply flatMap_id_rows
  intro ρ _
  rw [hf]
  rfl

theorem matchEvents_nil (g : Graph) (rows : List Row) :
    matchEvents g [] rows = rows := by
  unfold matchEvents
  have hf : g.nodes.filter (fun n => n.isEvent && nameOrAliasIn n []) = [] := by
    refine List.filter_eq_nil_iff.mpr (fun n _ => ?_)
    simp [nameOrAliasIn_nil]
  apply flatMap_id_rows
  intro ρ _
  rw [hf]
  rfl

theorem ckCond_nil (n : GNode) : ckCond [] [] n = false := by
  unfold ckCond
  simp

theorem matchKeywordChunks_nil (g : Graph) (rows : List Row) :
    matchKeywordChunks g [] [] rows = rows := by
  unfold matchKeywordChunks
  have hf : g.nodes.filter (ckCond [] []) = [] := by
    refine List.filter_eq_nil_iff.mpr (fun n _ => ?_)
    simp [ckCond_nil]
  apply flatMap_id_rows
  intro ρ _
  rw [hf]
  rfl

theorem matchHop2_false (g : Graph) (rows : List Row) :
    matchHop2 g false rows = rows := by
  unfold matchHop2
  apply flatMap_id_rows
  intro ρ _
  cases hx : ρ.x <;> simp [hx]

theorem retrieveRows_empty_pack (g : Graph) (hop2 : Bool) :
    retrieveRows g ⟨[], [], [], [], []⟩ hop2 = [rowNull] := by
  show matchKeywordChunks g [] []
      (matchSupport g (fun ρ => ρ.y) (fun ρ c => { ρ with c3 := some c })
        (matchSupport g (fun ρ => ρ.x) (fun ρ c => { ρ with c2 := some c })
          (matchSupport g (fun ρ => ρ.e) (fun ρ c => { ρ with c1 := some c })
            (matchHop2 g hop2
              (matchHop1 g
                (matchEvents g []
                  (matchPersons g [] [rowNull]))))))) = [rowNull]
  rw [matchPersons_nil, matchEvents_nil]
  have h3 : matchHop1 g [rowNull] = [rowNull] := rfl
  have h4 : matchHop2 g hop2 [rowNull] = [rowNull] := by
    cases hop2 <;> rfl
  have h5 : matchSupport g (fun ρ => ρ.e) (fun ρ c => { ρ with c1 := some c }) [rowNull]
      = [rowNull] := rfl
  have h6 : matchSupport g (fun ρ => ρ.x) (fun ρ c => { ρ with c2 := some c }) [rowNull]
      = [rowNull] := rfl
  have h7 : matchSupport g (fun ρ => ρ.y) (fun ρ c => { ρ with c3 := some c }) [rowNull]
      = [rowNull] := rfl
  rw [h3, h4, h5, h6, h7]
  exact matchKeywordChunks_nil g [rowNull]

theorem hopCands_whitelist (g : Graph) (n : GNode) :
    ∀ em ∈ hopCands g n, REL_WHITELIST.contains em.1.rel = true := by
  intro em hm
  rcases List.mem_filterMap.mp hm with ⟨ed, _, hif⟩
  split at hif
  · rename_i hc
    rcases Option.map_eq_some'.mp hif with ⟨m, _, hem⟩
    cases hem
    simp only [Bool.and_eq_true] at hc
    exact hc.2
  · cases hif

theorem mem_matchPersons {g : Graph} {ps : List String} {rows : List Row} {ρ' : Row}
    (h : ρ' ∈ matchPersons g ps rows) :
    ∃ ρ ∈ rows, ρ'.r1 = ρ.r1 ∧ ρ'.r2 = ρ.r2 := by
  rcases List.mem_flatMap.mp h with ⟨ρ, hρ, hext⟩
  rcases mem_optExtend hext with heq | ⟨a, _, rfl⟩
  · subst heq
    exact ⟨_, hρ, rfl, rfl⟩
  · exact ⟨_, hρ, rfl, rfl⟩

theorem mem_matchEvents {g : Graph} {es : List String} {rows : List Row} {ρ' : Row}
    (h : ρ' ∈ matchEvents g es rows) :
    ∃ ρ ∈ rows, ρ'.r1 = ρ.r1 ∧ ρ'.r2 = ρ.r2 := by
  rcases List.mem_flatMap.mp h with ⟨ρ, hρ, hext⟩
  rcases mem_optExtend hext with heq | ⟨a, _, rfl⟩
  · subst heq
    exact ⟨_, hρ, rfl, rfl⟩
  · exact ⟨_, hρ, rfl, rfl⟩

theorem mem_matchKeywordChunks {g : Graph} {ks fs : List String} {rows : List Row} {ρ' : Row}
    (h : ρ' ∈ matchKeywordChunks g ks fs rows) :
    ∃ ρ ∈ rows, ρ'.r1 = ρ.r1 ∧ ρ'.r2 = ρ.r2 := by
  rcases List.mem_flatMap.mp h with ⟨ρ, hρ, hext⟩
  rcases mem_optExtend hext with heq | ⟨a, _, rfl⟩
  · subst heq
    exact ⟨_, hρ, rfl, rfl⟩
  · exact ⟨_, hρ, rfl, rfl⟩

theorem mem_matchSupport {g : Graph} {get : Row → Option GNode}
    {set : Row → GNode → Row} {rows : List Row} {ρ' : Row}
    (h : ρ' ∈ matchSupport g get set rows)
    (hset : ∀ ρ c, (set ρ c).r1 = ρ.r1 ∧ (set ρ c).r2 = ρ.r2) :
    ∃ ρ ∈ rows, ρ'.r1 = ρ.r1 ∧ ρ'.r2 = ρ.r2 := by
  rcases List.mem_flatMap.mp h with ⟨ρ, hρ, hext⟩
  revert hext
  cases hget : get ρ with
  | none =>
    intro hext
    have heq := List.mem_singleton.mp hext
    subst heq
    exact ⟨_, hρ, rfl, rfl⟩
  | some n =>
    intro hext
    rcases mem_optExtend hext with heq | ⟨a, _, rfl⟩
    · subst heq
      exact ⟨_, hρ, rfl, rfl⟩
    · exact ⟨_, hρ, (hset ρ a).1, (hset ρ a).2⟩

theorem mem_matchHop1 {g : Graph} {rows : List Row} {ρ' : Row}
    (h : ρ' ∈ matchHop1 g rows) :
    ∃ ρ ∈ rows, ρ'.r2 = ρ.r2 ∧
      (ρ'.r1 = ρ.r1 ∨ ∃ ed, ρ'.r1 = some ed ∧ REL_WHITELIST.contains ed.rel = true) := by
  rcases List.mem_flatMap.mp h with ⟨ρ, hρ, hext⟩
  revert hext
  cases hp : ρ.p with
  | none =>
    intro hext
    have heq := List.mem_singleton.mp hext
    subst heq
    exact ⟨_, hρ, rfl, Or.inl rfl⟩
  | some pn =>
    intro hext
    rcases mem_optExtend hext with heq | ⟨em, hem, rfl⟩
    · subst heq
      exact ⟨_, hρ, rfl, Or.inl rfl⟩
    · exact ⟨_, hρ, rfl, Or.inr ⟨em.1, rfl, hopCands_whitelist g pn em hem⟩⟩

theorem mem_matchHop2 {g : Graph} {hop2 : Bool} {rows : List Row} {ρ' : Row}
    (h : ρ' ∈ matchHop2 g hop2 rows) :
    ∃ ρ ∈ rows, ρ'.r1 = ρ.r1 ∧
      (ρ'.r2 = ρ.r2 ∨ ∃ ed, ρ'.r2 = some ed ∧ REL_WHITELIST.contains ed.rel = true) := by
  rcases List.mem_flatMap.mp h with ⟨ρ, hρ, hext⟩
  revert hext
  cases hx : ρ.x with
  | none =>
    intro hext
    have heq := List.mem_singleton.mp hext
    subst heq
    exact ⟨_, hρ, rfl, Or.inl rfl⟩
  | some xn =>
    intro hext
    by_cases hh : hop2 = true
    · subst hh
      simp only [if_true] at hext
      rcases mem_optExtend hext with heq | ⟨em, hem, rfl⟩
      · subst heq
        exact ⟨_, hρ, rfl, Or.inl rfl⟩
      · exact ⟨_, hρ, rfl, Or.inr ⟨em.1, rfl, hopCands_whitelist g xn em hem⟩⟩
    · rw [Bool.not_eq_true] at hh
      subst hh
      simp only [Bool.false_eq_true, if_false] at hext
      have heq := List.mem_singleton.mp hext
      subst heq
      exact ⟨_, hρ, rfl, Or.inl rfl⟩


/-- The relationship invariant carried by every result row: any bound
`r1`/`r2` relationship has a whitelisted type. -/
def relInv (ρ : Row) : Prop :=
  (∀ ed, ρ.r1 = some ed → REL_WHITELIST.contains ed.rel = true) ∧
  (∀ ed, ρ.r2 = some ed → REL_WHITELIST.contains ed.rel = true)

theorem retrieveRows_relInv (g : Graph) (pack : EntityPack) (hop2 : Bool) :
    ∀ ρ ∈ retrieveRows g pack hop2, relInv ρ := by
  intro ρ hρ
  simp only [retrieveRows] at hρ
  rcases mem_matchKeywordChunks hρ with ⟨ρ4, hρ4, e41, e42⟩
  rcases mem_matchSupport hρ4 (fun ρ c => ⟨rfl, rfl⟩) with ⟨ρ3, hρ3, e31, e32⟩
  rcases mem_matchSupport hρ3 (fun ρ c => ⟨rfl, rfl⟩) with ⟨ρ2, hρ2, e21, e22⟩
  rcases mem_matchSupport hρ2 (fun ρ c => ⟨rfl, rfl⟩) with ⟨ρ1, hρ1, e11, e12⟩
  rcases mem_matchHop2 hρ1 with ⟨ρh, hρh, eh1, eh2⟩
  rcases mem_matchHop1 hρh with ⟨ρe, hρe, ee2, ee1⟩
  rcases mem_matchEvents hρe with ⟨ρp, hρp, ep1, ep2⟩
  rcases mem_matchPersons hρp with ⟨ρ0, hρ0, e01, e02⟩
  have h0 := List.mem_singleton.mp hρ0
  subst h0
  constructor
  · intro ed hed
    have h1 : ρ1.r1 = some ed := by rw [← e11, ← e21, ← e31, ← e41]; exact hed
    have hh : ρh.r1 = some ed := by rw [← eh1]; exact h1
    rcases ee1 with ee1 | ⟨ed', hed', hwl⟩
    · rw [ee1, ep1, e01] at hh
      simp [rowNull] at hh
    · rw [hed'] at hh
      cases hh
      exact hwl
  · intro ed hed
    have h1 : ρ1.r2 = some ed := by rw [← e12, ← e22, ← e32, ← e42]; exact hed
    rcases eh2 with eh2 | ⟨ed', hed', hwl⟩
    · rw [eh2, ee2, ep2, e02] at h1
      simp [rowNull] at h1
    · rw [hed'] at h1
      cases h1
      exact hwl

theorem retrieveRows_r2_none (g : Graph) (pack : EntityPack) :
    ∀ ρ ∈ retrieveRows g pack false, ρ.r2 = none := by
  intro ρ hρ
  simp only [retrieveRows, matchHop2_false] at hρ
  rcases mem_matchKeywordChunks hρ with ⟨ρ4, hρ4, _, e42⟩
  rcases mem_matchSupport hρ4 (fun ρ c => ⟨rfl, rfl⟩) with ⟨ρ3, hρ3, _, e32⟩
  rcases mem_matchSupport hρ3 (fun ρ c => ⟨rfl, rfl⟩) with ⟨ρ2, hρ2, _, e22⟩
  rcases mem_matchSupport hρ2 (fun ρ c => ⟨rfl, rfl⟩) with ⟨ρ1, hρ1, _, e12⟩
  rcases mem_matchHop1 hρ1 with ⟨ρe, hρe, ee2, _⟩
  rcases mem_matchEvents hρe with ⟨ρp, hρp, _, ep2⟩
  rcases mem_matchPersons hρp with ⟨ρ0, hρ0, _, e02⟩
  have h0 := List.mem_singleton.mp hρ0
  subst h0
  rw [e42, e32, e22, e12, ee2, ep2, e02]
  rfl

/-! ### DISTINCT collection and Python deduplication lemmas -/

theorem mem_distinctList_go [DecidableEq α] (seen : List α) (l : List α) (x : α)
    (h : x ∈ distinctList.go seen l) : x ∈ l := by
  induction l generalizing seen with
  | nil => cases h
  | cons a rest ih =>
    simp only [distinctList.go] at h
    split at h
    · exact List.mem_cons_of_mem a (ih seen h)
    · rcases List.mem_cons.mp h with heq | h
      · exact heq ▸ List.mem_cons_self _ _
      · exact List.mem_cons_of_mem a (ih (a :: seen) h)

theorem mem_distinctList [DecidableEq α] (l : List α) (x : α)
    (h : x ∈ distinctList l) : x ∈ l :=
  mem_distinctList_go [] l x h

theorem dedupChunksAux_length (seen : List String) (l : List CyChunk) :
    (dedupChunksAux seen l).length ≤ l.length := by
  induction l generalizing seen with
  | nil => exact Nat.le_refl 0
  | cons c rest ih =>
    cases hc : c.chunk_id with
    | none =>
      simp only [dedupChunksAux, hc]
      exact Nat.le_succ_of_le (ih seen)
    | some cid =>
      simp only [dedupChunksAux, hc]
      by_cases hskip : (decide (cid = "") || seen.contains cid) = true
      · rw [if_pos hskip]
        exact Nat.le_succ_of_le (ih seen)
      · rw [if_neg hskip]
        simp only [List.length_cons]
        exact Nat.succ_le_succ (ih (cid :: seen))

theorem mem_dedupChunksAux (seen : List String) (l : List CyChunk) (c : CyChunk)
    (h : c ∈ dedupChunksAux seen l) :
    ∃ cid, c.chunk_id = some cid ∧ cid ≠ "" ∧ cid ∉ seen ∧
      l.find? (fun c' => c'.chunk_id == some cid) = some c := by
  induction l generalizing seen with
  | nil => cases h
  | cons c0 rest ih =>
    cases h0 : c0.chunk_id with
    | none =>
      simp only [dedupChunksAux, h0] at h
      rcases ih seen h with ⟨cid, h1, h2, h3, h4⟩
      refine ⟨cid, h1, h2, h3, ?_⟩
      rw [List.find?_cons_of_neg _ (by simp [h0]), h4]
    | some cid0 =>
      simp only [dedupChunksAux, h0] at h
      by_cases hskip : (decide (cid0 = "") || seen.contains cid0) = true
      · rw [if_pos hskip] at h
        simp only [Bool.or_eq_true, decide_eq_true_eq] at hskip
        rcases ih seen h with ⟨cid, h1, h2, h3, h4⟩
        have hne : ¬ (cid0 = cid) := by
          intro hEq
          subst hEq
          rcases hskip with hskip | hskip
          · exact h2 hskip
          · exact h3 (by simpa using hskip)
        refine ⟨cid, h1, h2, h3, ?_⟩
        rw [List.find?_cons_of_neg _ (by simp [h0, hne]), h4]
      · rw [if_neg hskip] at h
        simp only [Bool.or_eq_true, decide_eq_true_eq, not_or] at hskip
        rcases List.mem_cons.mp h with heq | h
        · subst heq
          refine ⟨cid0, h0, hskip.1, fun hmem => hskip.2 (by simpa using hmem), ?_⟩
          rw [List.find?_cons_of_pos _ (by simp [h0])]
        · rcases ih (cid0 :: seen) h with ⟨cid, h1, h2, h3, h4⟩
          simp only [List.mem_cons, not_or] at h3
          have hne : ¬ (cid0 = cid) := fun hEq => h3.1 hEq.symm
          refine ⟨cid, h1, h2, h3.2, ?_⟩
          rw [List.find?_cons_of_neg _ (by simp [h0, hne]), h4]

theorem dedupChunksAux_ids_nodup (seen : List String) (l : List CyChunk) :
    ((dedupChunksAux seen l).map (fun c => c.chunk_id)).Nodup := by
  induction l generalizing seen with
  | nil => exact List.nodup_nil
  | cons c0 rest ih =>
    cases h0 : c0.chunk_id with
    | none =>
      simp only [dedupChunksAux, h0]
      exact ih seen
    | some cid0 =>
      simp only [dedupChunksAux, h0]
      by_cases hskip : (decide (cid0 = "") || seen.contains cid0) = true
      · rw [if_pos hskip]
        exact ih seen
      · rw [if_neg hskip]
        simp only [List.map_cons, List.nodup_cons, h0]
        refine ⟨?_, ih (cid0 :: seen)⟩
        intro hmem
        rcases List.mem_map.mp hmem with ⟨c', hc', hcid⟩
        rcases mem_dedupChunksAux _ _ _ hc' with ⟨cid, h1, _, h3, _⟩
        rw [h1] at hcid
        have : cid = cid0 := by simpa using hcid
        subst this
        exact h3 (List.mem_cons_self _ _)

theorem truthyOpt_eq_true {o : Option String} (h : truthyOpt o = true) :
    ∃ r, o = some r ∧ r ≠ "" := by
  cases o with
  | none => cases h
  | some s => exact ⟨s, rfl, by simpa [truthyOpt] using h⟩


theorem retrieve_edges_whitelist (g : Graph) (pack : EntityPack)
    (hop2 : Bool) (e : CyEdge)
    (he : e ∈ ((cypherEdges g pack hop2).take 80).filter
      (fun ed => truthyOpt ed.rel)) :
    ∃ r, e.rel = some r ∧ r ≠ "" ∧ r ∈ REL_WHITELIST := by
  have htr0 := List.of_mem_filter he
  have htr : truthyOpt e.rel = true := htr0
  have hmem0 := List.mem_of_mem_filter he
  have hmem : e ∈ cypherEdges g pack hop2 := List.take_subset _ _ hmem0
  rcases truthyOpt_eq_true htr with ⟨r, hr, hrne⟩
  unfold cypherEdges at hmem
  rcases List.mem_append.mp hmem with hmem | hmem
  · rcases List.mem_map.mp (mem_distinctList _ _ hmem) with ⟨ρ, hρ, hst⟩
    have hrel : ρ.r1.map (fun ed => ed.rel) = some r := by
      rw [← hr, ← hst]
      rfl
    rcases Option.map_eq_some'.mp hrel with ⟨ed, hed, hrrel⟩
    have hwl := (retrieveRows_relInv g pack hop2 ρ hρ).1 ed hed
    subst hrrel
    exact ⟨ed.rel, hr, hrne, by simpa using hwl⟩
  · rcases List.mem_map.mp (mem_distinctList _ _ hmem) with ⟨ρ, hρ, hst⟩
    have hrel : ρ.r2.map (fun ed => ed.rel) = some r := by
      rw [← hr, ← hst]
      rfl
    rcases Option.map_eq_some'.mp hrel with ⟨ed, hed, hrrel⟩
    have hwl := (retrieveRows_relInv g pack hop2 ρ hρ).2 ed hed
    subst hrrel
    exact ⟨ed.rel, hr, hrne, by simpa using hwl⟩

/-- C3 (amended): for every entity pack and every `top_k` in [1, 30],
the retrieval result has at most `top_k` chunks, whose `chunk_id`s are
pairwise distinct and non-empty with the first occurrence kept from the
Cypher chunk list; every returned edge has a non-empty relation type
drawn from the whitelist; and the edge list is capped at 80.  (Edges
are deduplicated only within each traversal stage, not across stages —
see the counterexample.) -/
theorem neo4j_retrieve_invariants (g : Graph) (pack : EntityPack)
    (top_k max_hops : Nat) (h1 : 1 ≤ top_k) (h2 : top_k ≤ 30) :
    (neo4j_retrieve g pack top_k max_hops).chunks.length ≤ top_k ∧
    (∀ c ∈ (neo4j_retrieve g pack top_k max_hops).chunks,
      ∃ cid, c.chunk_id = some cid ∧ cid ≠ "" ∧
        (cypherChunks g pack top_k (decide (2 ≤ max_hops))).find?
          (fun c' => c'.chunk_id == some cid) = some c) ∧
    ((neo4j_retrieve g pack top_k max_hops).chunks.map (fun c => c.chunk_id)).Nodup ∧
    (∀ e ∈ (neo4j_retrieve g pack top_k max_hops).edges,
      ∃ r, e.rel = some r ∧ r ≠ "" ∧ r ∈ REL_WHITELIST) ∧
    (neo4j_retrieve g pack top_k max_hops).edges.length ≤ 80 := by
  unfold neo4j_retrieve retrieveCore
  by_cases hemp : (chunkNodeRows g pack (decide (2 ≤ max_hops))).isEmpty = true
  · rw [if_pos hemp]
    exact ⟨by simp, by simp, by simp, by simp, by simp⟩
  · rw [if_neg hemp]
    dsimp only
    refine ⟨?_, ?_, ?_, ?_, ?_⟩
    · calc (dedupChunksAux [] (cypherChunks g pack top_k (decide (2 ≤ max_hops)))).length
          ≤ (cypherChunks g pack top_k (decide (2 ≤ max_hops))).length :=
            dedupChunksAux_length _ _
        _ ≤ top_k := by
            unfold cypherChunks
            exact List.length_take_le _ _
    · intro c hc
      rcases mem_dedupChunksAux [] _ c hc with ⟨cid, ha, hb, _, hd⟩
      exact ⟨cid, ha, hb, hd⟩
    · exact dedupChunksAux_ids_nodup [] _
    · intro e he
      exact retrieve_edges_whitelist g pack (decide (2 ≤ max_hops)) e he
    · calc (((cypherEdges g pack (decide (2 ≤ max_hops))).take 80).filter
            (fun ed => truthyOpt ed.rel)).length
          ≤ ((cypherEdges g pack (decide (2 ≤ max_hops))).take 80).length :=
            List.length_filter_le _ _
        _ ≤ 80 := List.length_take_le _ _

/-- C4: an entity pack whose five containers are all empty makes every
match clause miss and the keyword fallback degenerate, so retrieval
returns empty evidence for every `top_k` and `max_hops` in their
validated ranges. -/
theorem neo4j_retrieve_empty_pack (g : Graph) (pack : EntityPack)
    (hp : pack.persons = []) (hl : pack.locations = []) (ho : pack.orgs = [])
    (he : pack.events = []) (hk : pack.keywords = [])
    (top_k max_hops : Nat) (h1 : 1 ≤ top_k) (h2 : top_k ≤ 30)
    (h3 : 1 ≤ max_hops) (h4 : max_hops ≤ 3) :
    neo4j_retrieve g pack top_k max_hops = ⟨[], []⟩ := by
  obtain ⟨p5, l5, o5, e5, k5⟩ := pack
  dsimp only at hp hl ho he hk
  subst hp hl ho he hk
  have hchunks : chunkNodeRows g ⟨[], [], [], [], []⟩ (decide (2 ≤ max_hops)) = [] := by
    unfold chunkNodeRows
    rw [retrieveRows_empty_pack g (decide (2 ≤ max_hops))]
    rfl
  unfold neo4j_retrieve retrieveCore
  rw [hchunks]
  rfl

/-- C5: `max_hops = 1` makes the second-stage clause match nothing, so
every returned edge is the stage-1 rendering of some result row; and
any `max_hops` of at least 2 produces exactly the same evidence as
`max_hops = 2`, because the parameter is only ever compared against 2. -/
theorem neo4j_retrieve_hop_semantics (g : Graph) (pack : EntityPack) (top_k : Nat) :
    (∀ e ∈ (neo4j_retrieve g pack top_k 1).edges,
      ∃ ρ ∈ retrieveRows g pack false, stage1Triple ρ = e) ∧
    (∀ max_hops, 2 ≤ max_hops →
      neo4j_retrieve g pack top_k max_hops = neo4j_retrieve g pack top_k 2) := by
  constructor
  · intro e he
    have hco : neo4j_retrieve g pack top_k 1 = retrieveCore g pack top_k false := rfl
    rw [hco] at he
    unfold retrieveCore at he
    by_cases hemp : (chunkNodeRows g pack false).isEmpty = true
    · rw [if_pos hemp] at he
      cases he
    · rw [if_neg hemp] at he
      dsimp only at he
      have htr0 := List.of_mem_filter he
      have htr : truthyOpt e.rel = true := htr0
      have hmem0 := List.mem_of_mem_filter he
      have hmem : e ∈ cypherEdges g pack false := List.take_subset _ _ hmem0
      unfold cypherEdges at hmem
      rcases List.mem_append.mp hmem with hmem | hmem
      · rcases List.mem_map.mp (mem_distinctList _ _ hmem) with ⟨ρ, hρ, hst⟩
        exact ⟨ρ, hρ, hst⟩
      · exfalso
        rcases List.mem_map.mp (mem_distinctList _ _ hmem) with ⟨ρ, hρ, hst⟩
        have h2 := retrieveRows_r2_none g pack ρ hρ
        rcases truthyOpt_eq_true htr with ⟨r, hr, _⟩
        rw [← hst] at hr
        have hr' : ρ.r2.map (fun ed => ed.rel) = some r := hr
        rw [h2] at hr'
        cases hr'
  · intro maxh hge
    have hco : neo4j_retrieve g pack top_k maxh
        = retrieveCore g pack top_k (decide (2 ≤ maxh)) := rfl
    rw [hco, decide_eq_true hge]
    rfl

/-- A concrete store exhibiting cross-stage edge duplication: `P` and
`A` are both queried persons, `P` loves `A` and `A` loves `B`, so the
triple `(A, LOVES, B)` is collected once by stage 1 (from `p = A`) and
once by stage 2 (from `p = P`, `x = A`). -/
def gDup : Graph :=
  { nodes :=
      [⟨0, true, false, false, some "P", [], none, none, none⟩,
       ⟨1, true, false, false, some "A", [], none, none, none⟩,
       ⟨2, false, false, false, some "B", [], none, none, none⟩,
       ⟨3, false, false, true, none, [], some "c1", some "ch1", some "xkx"⟩],
    edges := [⟨0, "LOVES", 1⟩, ⟨1, "LOVES", 2⟩] }

def packDup : EntityPack := ⟨["A", "P"], [], [], [], ["k"]⟩

/-- Counterexample to C3 as stated: the returned edge list of a
concrete retrieval contains a duplicated triple, because the two
traversal stages deduplicate separately and their collections are then
concatenated. -/
theorem neo4j_retrieve_dedup_cex :
    ¬ ((neo4j_retrieve gDup packDup 8 2).edges.Nodup) := by decide

/-- Witness for `neo4j_retrieve_invariants` on a concrete store. -/
theorem neo4j_retrieve_invariants_witness :
    (neo4j_retrieve gDup packDup 8 2).chunks.length ≤ 8 ∧
    (neo4j_retrieve gDup packDup 8 2).edges.length ≤ 80 :=
  ⟨(neo4j_retrieve_invariants gDup packDup 8 2 (by decide) (by decide)).1,
   (neo4j_retrieve_invariants gDup packDup 8 2 (by decide) (by decide)).2.2.2.2⟩

/-- A concrete non-trivial store for the empty-pack and hop witnesses. -/
def gHop : Graph :=
  { nodes :=
      [⟨0, true, false, false, some "P", [], none, none, none⟩,
       ⟨1, false, false, false, some "A", [], none, none, none⟩,
       ⟨2, false, false, true, none, [], some "c9", some "ch9", some "akb"⟩],
    edges := [⟨0, "LOVES", 1⟩] }

def packHop : EntityPack := ⟨["P"], [], [], [], ["k"]⟩

/-- Witness for `neo4j_retrieve_empty_pack`: even on a non-empty store,
an all-empty pack retrieves empty evidence. -/
theorem neo4j_retrieve_empty_pack_witness :
    neo4j_retrieve gDup ⟨[], [], [], [], []⟩ 8 2 = ⟨[], []⟩ :=
  neo4j_retrieve_empty_pack gDup ⟨[], [], [], [], []⟩ rfl rfl rfl rfl rfl 8 2
    (by decide) (by decide) (by decide) (by decide)

/-- Witness for `neo4j_retrieve_hop_semantics`: the one edge returned
at `max_hops = 1` is a stage-1 edge, and `max_hops = 3` retrieves the
same evidence as `max_hops = 2`. -/
theorem neo4j_retrieve_hop_semantics_witness :
    (∃ ρ ∈ retrieveRows gHop packHop false,
      stage1Triple ρ = ⟨"P", some "LOVES", "A"⟩) ∧
    neo4j_retrieve gHop packHop 8 3 = neo4j_retrieve gHop packHop 8 2 :=
  ⟨(neo4j_retrieve_hop_semantics gHop packHop 8).1 ⟨"P", some "LOVES", "A"⟩ (by decide),
   (neo4j_retrieve_hop_semantics gHop packHop 8).2 3 (by decide)⟩

/-! ## Finalization and title generation (`conversation_api`)

`chat.event_gen` streams SSE events and, in its `finally` block, joins
and strips the accumulated token buffer, persists an assistant message
when the stripped answer is non-empty, and then may generate and
persist a conversation title.  The two LLM round trips involved are
again passed explicitly: `titleLlm = none` models an exception in the
title call (absorbed by the `except` fallback), `some content` a
response with that content. -/

/-- The characters of the trailing-punctuation class stripped by
`_clean_title`'s regular expression (the braces are written as hex
escapes). -/
def pyTrailingPunct : List Char :=
  ['。', '！', '？', '!', '?', ',', '，', ':', '：', '；', ';', '“', '”', '"', '\'',
   '(', ')', '[', ']', '\x7b', '\x7d']

/-- The line-boundary characters of Python `str.splitlines`. -/
def pyLineBreaks : List Char :=
  ['\n', '\r', '\x0b', '\x0c', '\x1c', '\x1d', '\x1e', '\u0085', '\u2028', '\u2029']

/-- `s.splitlines()[0]` for a non-empty `s`. -/
def firstLine (s : String) : String :=
  ⟨s.data.takeWhile (fun c => !(pyLineBreaks.contains c))⟩

/-- `conversation_api._clean_title`: strip whitespace, strip quote
characters, keep the first line, drop trailing punctuation, and
truncate to 30 characters. -/
def _clean_title (s0 : String) : String :=
  let s1 := pyStrip s0
  let s2 := pyStrip ⟨stripEnds (fun c => c == '\'') (stripEnds (fun c => c == '"') s1.data)⟩
  let s3 := if s2 = "" then s2 else pyStrip (firstLine s2)
  let s4 := pyStrip ⟨(s3.data.reverse.dropWhile (fun c => pyTrailingPunct.contains c)).reverse⟩
  if 30 < s4.length then pyStrip ⟨s4.data.take 30⟩ else s4

/-- `conversation_api.generate_conversation_title`: the `answer`
argument only feeds the prompt, so it does not affect the result; a
failed call or an empty cleaned title falls back to the truncated
question (or "New chat" when the question strips to nothing). -/
def generate_conversation_title (question answer : String)
    (titleLlm : Option String) : String :=
  let q := pyStrip question
  let fallback0 := if 18 < q.length then String.mk (q.data.take 18) ++ "…" else q
  let fallback := if fallback0 = "" then "New chat" else fallback0
  match titleLlm with
  | none => fallback
  | some content =>
    let raw := pyStrip content
    let title := _clean_title raw
    if title = "" then fallback else title

/-- What the `finally` block of `chat.event_gen` did: the persisted
assistant content, whether title generation was invoked, and the title
written through `update_conversation_title` (if any). -/
structure FinalizeResult where
  persisted : Option String
  titleAttempted : Bool
  newTitle : Option String
deriving DecidableEq, Repr

/-- The `finally` block of `chat.event_gen`, for a conversation that
still exists at finalize time.  `msgCountAfterWrite` is the message
count read by `get_message_count` after this turn's user and assistant
writes. -/
def finalizeTurn (answer_buf : List String) (convTitle : String)
    (msgCountAfterWrite : Nat) (question : String)
    (titleLlm : Option String) : FinalizeResult :=
  let answer := pyStrip (String.join answer_buf)
  if answer = "" then ⟨none, false, none⟩
  else
    if pyStrip convTitle = "New chat" ∧ msgCountAfterWrite ≤ 2 then
      let new_title := _clean_title (generate_conversation_title question answer titleLlm)
      { persisted := some answer
        titleAttempted := true
        newTitle :=
          if new_title ≠ "" ∧ new_title ≠ "New chat" then some new_title else none }
    else ⟨some answer, false, none⟩

/-- The SSE events of the chat stream (payload details irrelevant to
the claims are elided to the stage/delta/message strings). -/
inductive SseEvent
  | meta (stage : String)
  | token (delta : String)
  | error (message : String)
  | done
deriving DecidableEq, Repr

/-- How one run of the pipeline inside `event_gen` can unfold: failure
during entity extraction, failure during retrieval, generation ending
in an exception or in client cancellation after some streamed tokens,
or normal completion. -/
inductive PipelineOutcome
  | extractFail (msg : String)
  | retrieveFail (msg : String)
  | genFail (tokens : List String) (msg : String)
  | cancelled (tokens : List String)
  | completed (tokens : List String)
deriving DecidableEq, Repr

/-- The SSE events yielded by `event_gen` for each outcome: both meta
events precede generation; every streamed token is yielded in order;
the `try` path ends with `done`, the `except` paths with `error`
(for cancellation, with the fixed "client cancelled" message). -/
def event_gen_events : PipelineOutcome → List SseEvent
  | .extractFail m => [.error m]
  | .retrieveFail m => [.meta "entity_extracted", .error m]
  | .genFail ts m =>
    .meta "entity_extracted" :: .meta "retrieved" :: (ts.map .token) ++ [.error m]
  | .cancelled ts =>
    .meta "entity_extracted" :: .meta "retrieved"
      :: (ts.map .token) ++ [.error "client cancelled"]
  | .completed ts =>
    .meta "entity_extracted" :: .meta "retrieved" :: (ts.map .token) ++ [.done]

/-- The token buffer accumulated when the `finally` block runs. -/
def event_gen_buffer : PipelineOutcome → List String
  | .extractFail _ => []
  | .retrieveFail _ => []
  | .genFail ts _ => ts
  | .cancelled ts => ts
  | .completed ts => ts

/-- The failure and cancellation outcomes C1 speaks about. -/
def isFailureOutcome : PipelineOutcome → Bool
  | .retrieveFail _ => true
  | .genFail _ _ => true
  | .cancelled _ => true
  | _ => false

theorem generate_title_fallback (question answer : String) :
    generate_conversation_title question answer none =
      (if pyStrip question = "" then "New chat"
       else if 18 < (pyStrip question).length then
         String.mk ((pyStrip question).data.take 18) ++ "…"
       else pyStrip question) := by
  simp only [generate_conversation_title]
  by_cases hq : pyStrip question = ""
  · rw [if_pos hq, hq]
    rfl
  · rw [if_neg hq]
    by_cases hlen : 18 < (pyStrip question).length
    · rw [if_pos hlen]
      have hne : String.mk ((pyStrip question).data.take 18) ++ "…" ≠ "" := by
        intro hEq
        have hdata := congrArg String.data hEq
        rw [str_data_append] at hdata
        simp at hdata
      rw [if_neg hne]
    · rw [if_neg hlen, if_neg hq]

/-- C9: a whitespace-only (or empty) accumulated buffer is stripped to
the empty string before the non-empty check, so finalization persists
no assistant message and never attempts title generation. -/
theorem finalize_whitespace_buffer (answer_buf : List String)
    (h : ∀ c ∈ (String.join answer_buf).data, pyIsSpace c = true)
    (convTitle : String) (n : Nat) (question : String) (titleLlm : Option String) :
    finalizeTurn answer_buf convTitle n question titleLlm = ⟨none, false, none⟩ := by
  simp only [finalizeTurn]
  rw [pyStrip_of_all_space _ h]
  rfl

/-- Witness for `finalize_whitespace_buffer` on a concrete
whitespace-only buffer. -/
theorem finalize_whitespace_buffer_witness :
    finalizeTurn [" ", "\t\n"] "New chat" 2 "问题" none = ⟨none, false, none⟩ :=
  finalize_whitespace_buffer [" ", "\t\n"] (by decide) "New chat" 2 "问题" none

/-- C8 (amended): title generation is attempted exactly when the
stripped answer is non-empty, the stripped conversation title equals
the placeholder "New chat", and the message count after the writes is
at most 2 (so count 4 never triggers); the persisted assistant message
does not depend on the title call's outcome; a title is written only
when non-empty and different from the placeholder; and a failed title
call yields the deterministic truncation of the question. -/
theorem finalize_title_policy (answer_buf : List String) (convTitle : String)
    (n : Nat) (question : String) (titleLlm : Option String) :
    ((finalizeTurn answer_buf convTitle n question titleLlm).titleAttempted = true →
      pyStrip convTitle = "New chat" ∧ n ≤ 2 ∧ pyStrip (String.join answer_buf) ≠ "") ∧
    (n = 4 → (finalizeTurn answer_buf convTitle n question titleLlm).titleAttempted = false) ∧
    ((finalizeTurn answer_buf convTitle n question titleLlm).persisted =
      (finalizeTurn answer_buf convTitle n question none).persisted) ∧
    (∀ t, (finalizeTurn answer_buf convTitle n question titleLlm).newTitle = some t →
      t ≠ "" ∧ t ≠ "New chat") ∧
    (generate_conversation_title question (pyStrip (String.join answer_buf)) none =
      (if pyStrip question = "" then "New chat"
       else if 18 < (pyStrip question).length then
         String.mk ((pyStrip question).data.take 18) ++ "…"
       else pyStrip question)) := by
  refine ⟨?_, ?_, ?_, ?_, generate_title_fallback question _⟩
  · intro hatt
    simp only [finalizeTurn] at hatt
    by_cases hans : pyStrip (String.join answer_buf) = ""
    · rw [if_pos hans] at hatt
      simp at hatt
    · rw [if_neg hans] at hatt
      by_cases hcond : pyStrip convTitle = "New chat" ∧ n ≤ 2
      · exact ⟨hcond.1, hcond.2, hans⟩
      · rw [if_neg hcond] at hatt
        simp at hatt
  · intro hn4
    subst hn4
    simp only [finalizeTurn]
    by_cases hans : pyStrip (String.join answer_buf) = ""
    · rw [if_pos hans]
    · rw [if_neg hans]
      have hcond : ¬ (pyStrip convTitle = "New chat" ∧ 4 ≤ 2) :=
        fun h => absurd h.2 (by decide)
      rw [if_neg hcond]
  · simp only [finalizeTurn]
    split_ifs <;> rfl
  · intro t ht
    simp only [finalizeTurn] at ht
    by_cases hans : pyStrip (String.join answer_buf) = ""
    · rw [if_pos hans] at ht
      cases ht
    · rw [if_neg hans] at ht
      by_cases hcond : pyStrip convTitle = "New chat" ∧ n ≤ 2
      · rw [if_pos hcond] at ht
        generalize _clean_title (generate_conversation_title question
          (pyStrip (String.join answer_buf)) titleLlm) = nt at ht
        dsimp only at ht
        split at ht
        · rename_i hcnd
          cases ht
          exact hcnd
        · cases ht
      · rw [if_neg hcond] at ht
        cases ht

/-- Counterexample to C8 as stated: a conversation whose stored title
is " New chat " — not equal to the placeholder — still triggers title
generation, because the code compares the stripped title. -/
theorem finalize_title_policy_cex :
    (finalizeTurn ["hi"] " New chat " 2 "q" none).titleAttempted = true ∧
    " New chat " ≠ "New chat" := by decide

/-- Witness for `finalize_title_policy` at concrete inputs: a first
turn with the placeholder title satisfies the guard, and count 4 does
not attempt generation. -/
theorem finalize_title_policy_witness :
    (pyStrip "New chat" = "New chat" ∧ 2 ≤ 2 ∧ pyStrip (String.join ["hi"]) ≠ "") ∧
    (finalizeTurn ["hi"] "Other" 4 "q" none).titleAttempted = false :=
  ⟨(finalize_title_policy ["hi"] "New chat" 2 "q" none).1 (by decide),
   (finalize_title_policy ["hi"] "Other" 4 "q" none).2.1 rfl⟩

/-- C1 (amended): every retrieval-failure, generation-failure or
cancellation run emits an `error` event and never a `done` event, and
Finalizing always runs on the accumulated buffer: when the joined
buffer strips to the empty string (in particular when it is empty) no
assistant message is persisted, and otherwise exactly one assistant
message carrying the whitespace-stripped join of the buffer is
persisted. -/
theorem chat_failure_finalize (o : PipelineOutcome)
    (hfail : isFailureOutcome o = true)
    (convTitle : String) (n : Nat) (question : String) (titleLlm : Option String) :
    SseEvent.done ∉ event_gen_events o ∧
    (∃ m, SseEvent.error m ∈ event_gen_events o) ∧
    ((pyStrip (String.join (event_gen_buffer o)) = "" →
       (finalizeTurn (event_gen_buffer o) convTitle n question titleLlm).persisted
         = none) ∧
     (pyStrip (String.join (event_gen_buffer o)) ≠ "" →
       (finalizeTurn (event_gen_buffer o) convTitle n question titleLlm).persisted
         = some (pyStrip (String.join (event_gen_buffer o))))) := by
  have hfin : ∀ buf : List String,
      (pyStrip (String.join buf) = "" →
        (finalizeTurn buf convTitle n question titleLlm).persisted = none) ∧
      (pyStrip (String.join buf) ≠ "" →
        (finalizeTurn buf convTitle n question titleLlm).persisted
          = some (pyStrip (String.join buf))) := by
    intro buf
    constructor
    · intro h
      simp only [finalizeTurn]
      rw [if_pos h]
    · intro h
      simp only [finalizeTurn]
      rw [if_neg h]
      by_cases hcond : pyStrip convTitle = "New chat" ∧ n ≤ 2
      · rw [if_pos hcond]
      · rw [if_neg hcond]
  cases o with
  | extractFail m => cases hfail
  | completed ts => cases hfail
  | retrieveFail m =>
    refine ⟨?_, ⟨m, ?_⟩, hfin []⟩
    · simp [event_gen_events]
    · simp [event_gen_events]
  | genFail ts m =>
    refine ⟨?_, ⟨m, ?_⟩, hfin ts⟩
    · simp [event_gen_events]
    · simp [event_gen_events]
  | cancelled ts =>
    refine ⟨?_, ⟨"client cancelled", ?_⟩, hfin ts⟩
    · simp [event_gen_events]
    · simp [event_gen_events]

/-- Counterexample to C1 as stated: a cancellation with the non-empty
partial buffer [" "] still persists no assistant message, because the
joined buffer is stripped before the emptiness check. -/
theorem chat_failure_finalize_cex :
    event_gen_buffer (PipelineOutcome.cancelled [" "]) ≠ [] ∧
    (finalizeTurn (event_gen_buffer (PipelineOutcome.cancelled [" "]))
      "New chat" 2 "q" none).persisted = none := by decide

/-- Witness for `chat_failure_finalize`: the cancelled run with partial
buffer "Hello wor" emits no `done` event and persists exactly that
partial answer. -/
theorem chat_failure_finalize_witness :
    SseEvent.done ∉ event_gen_events (PipelineOutcome.cancelled ["Hello", " wor"]) ∧
    (finalizeTurn (event_gen_buffer (PipelineOutcome.cancelled ["Hello", " wor"]))
      "t" 4 "q" none).persisted = some "Hello wor" := by
  refine ⟨(chat_failure_finalize (PipelineOutcome.cancelled ["Hello", " wor"])
    (by decide) "t" 4 "q" none).1, ?_⟩
  have h := (chat_failure_finalize (PipelineOutcome.cancelled ["Hello", " wor"])
    (by decide) "t" 4 "q" none).2.2.2 (by decide)
  rw [h]
  decide
